import Mathlib

/-!
Shallow embedding of the `unknow_cost_creditScoring` repository:
the strategic-classification environment `src/env/creditScoring_v3.py`
and the actor-critic agent `src/model/principal_v5.py`.

Python floats are modelled as rationals (`ℚ`), numpy 1-D arrays as
`List ℚ`, and Python exceptions as `Except String`.
-/

/-- Module-level constant `epsilon : float = 1` of `creditScoring_v3.py`. -/
def epsilon : ℚ := 1

/-- Module-level constant `strat_features = np.array([1, 6, 8]) - 1` of
`creditScoring_v3.py`, i.e. the zero-based indices `[0, 5, 7]`. -/
def strat_features : List ℕ := [0, 5, 7]

/-- Module-level constant `strategic_response = True` of `creditScoring_v3.py`. -/
def strategic_response : Bool := true

/-- Module-level constant `response_method = "Close"` of `creditScoring_v3.py`. -/
def response_method : String := "Close"

/-- Method `strategic_response_Close` of `creditScoring_v3.py` (lines 159-193).
The module global `strategic_response` is passed explicitly as `sr`.
`modified = np.copy(real_feature)`, `theta = policy_weight[:-1]`, and the fancy-index
update `modified[strat_features] += -epsilon * theta[strat_features]` gathers the
addends from the original vector and scatters the sums back, which the fold below
reproduces (each index is set to its value computed from `real_feature`). -/
def strategic_response_Close (sr : Bool) (real_feature policy_weight : List ℚ)
    (eps : ℚ) (S : List ℕ) : List ℚ :=
  if sr = false then real_feature
  else
    let theta := policy_weight.dropLast
    S.foldl (fun m i => m.set i (real_feature.getD i 0 + (-eps) * theta.getD i 0))
      real_feature

/-- Method `strategic_response_GA` of `creditScoring_v3.py` (lines 63-157).
The module global `strategic_response` is passed explicitly as `sr`.  After the
`if not strategic_response: return real_feature` guard the method runs a torch
Adam gradient-ascent loop over the strategic coordinates; that transcendental
iteration is kept abstract as the function argument `ascent` (taking the real
feature vector and the policy weights), since no claim depends on its value. -/
def strategic_response_GA (sr : Bool) (ascent : List ℚ → List ℚ → List ℚ)
    (real_feature policy_weight : List ℚ) : List ℚ :=
  if sr = false then real_feature
  else ascent real_feature policy_weight

/-- Setting an index to the value it already holds (with `getD` default `0`)
leaves the list unchanged. -/
lemma set_getD_self (l : List ℚ) (i : ℕ) : l.set i (l.getD i 0) = l := by
  induction l generalizing i with
  | nil => simp
  | cons a t ih =>
    cases i with
    | zero => simp
    | succ n => simpa using ih n

/-- A fold of index-value writes whose values depend only on the index and a
fixed source list leaves every index outside the written set unchanged. -/
lemma foldl_set_getD_not_mem (f : ℕ → ℚ) (S : List ℕ) (m : List ℚ) (j : ℕ)
    (hj : j ∉ S) :
    (S.foldl (fun m i => m.set i (f i)) m).getD j 0 = m.getD j 0 := by
  induction S generalizing m with
  | nil => rfl
  | cons i rest ih =>
    have hji : j ≠ i := fun h => hj (h ▸ List.mem_cons_self i rest)
    have hjrest : j ∉ rest := fun h => hj (List.mem_cons_of_mem i h)
    rw [List.foldl_cons, ih _ hjrest]
    simp [List.getD_eq_getElem?_getD, List.getElem?_set_ne (Ne.symm hji)]

/-- Folding index-value writes preserves the length of the list. -/
lemma foldl_set_length (f : ℕ → ℚ) (S : List ℕ) (m : List ℚ) :
    (S.foldl (fun m i => m.set i (f i)) m).length = m.length := by
  induction S generalizing m with
  | nil => rfl
  | cons i rest ih => rw [List.foldl_cons, ih, List.length_set]

/-- A fold of index-value writes whose values depend only on the index writes
`f j` at every in-bounds written index `j`. -/
lemma foldl_set_getD_mem (f : ℕ → ℚ) (S : List ℕ) (m : List ℚ) (j : ℕ)
    (hj : j ∈ S) (hlt : j < m.length) :
    (S.foldl (fun m i => m.set i (f i)) m).getD j 0 = f j := by
  induction S generalizing m with
  | nil => cases hj
  | cons i rest ih =>
    rw [List.foldl_cons]
    by_cases hjr : j ∈ rest
    · exact ih _ hjr (by simpa using hlt)
    · have hji : j = i := by
        rcases List.mem_cons.mp hj with h | h
        · exact h
        · exact absurd h hjr
      subst hji
      rw [foldl_set_getD_not_mem _ _ _ _ hjr]
      simp [List.getD_eq_getElem?_getD, List.getElem?_set_self, hlt]

/-- C1: for the closed-form strategic response with the configured
`strategic_response = True`: for every raw feature vector `x`, weight vector
`θ` of matching length, every `ε`, and every set `S` of non-bias feature
indices, the result satisfies `x'_i = x_i − ε·θ_i` for `i ∈ S` and
`x'_i = x_i` for `i ∉ S`, the trailing bias coordinate included. -/
theorem strategic_response_Close_formula (x θ : List ℚ) (eps : ℚ) (S : List ℕ)
    (hlen : θ.length = x.length) (hS : ∀ i ∈ S, i + 1 < x.length) :
    (∀ i ∈ S, (strategic_response_Close strategic_response x θ eps S).getD i 0 =
        x.getD i 0 - eps * θ.getD i 0) ∧
    (∀ i, i ∉ S → (strategic_response_Close strategic_response x θ eps S).getD i 0 =
        x.getD i 0) := by
  constructor
  · intro i hi
    have hx := hS i hi
    have hib : i < x.length := lt_of_le_of_lt (Nat.le_succ i) hx
    have hdrop : (θ.dropLast).getD i 0 = θ.getD i 0 := by
      have hθ : i < θ.length - 1 := by omega
      have hθ2 : i < θ.length := by omega
      simp [List.getD_eq_getElem?_getD, List.dropLast_eq_take, List.getElem?_take, hθ,
        List.getElem?_eq_getElem hθ2]
    rw [strategic_response_Close, if_neg (by simp [strategic_response])]
    rw [foldl_set_getD_mem _ _ _ _ hi hib, hdrop]
    ring
  · intro i hi
    rw [strategic_response_Close, if_neg (by simp [strategic_response])]
    exact foldl_set_getD_not_mem _ _ _ _ hi

/-- Instantiation of `strategic_response_Close_formula` at `x = [1,2,3]`,
`θ = [2,4,6]`, `ε = 1`, `S = [0]`. -/
theorem strategic_response_Close_formula_witness :
    (strategic_response_Close strategic_response [1, 2, 3] [2, 4, 6] 1 [0]).getD 0 0 =
      1 - 1 * 2 :=
  (strategic_response_Close_formula [1, 2, 3] [2, 4, 6] 1 [0] (by decide)
    (by decide)).1 0 (by simp)

/-- C9: the strategic response is the identity when manipulation is globally
disabled (both strategies), and the closed-form strategy is the identity
when `ε = 0`. -/
theorem strategic_response_identity (x θ : List ℚ) (eps : ℚ) (S : List ℕ)
    (ascent : List ℚ → List ℚ → List ℚ) :
    strategic_response_Close false x θ eps S = x ∧
    strategic_response_GA false ascent x θ = x ∧
    strategic_response_Close strategic_response x θ 0 S = x := by
  refine ⟨rfl, rfl, ?_⟩
  rw [strategic_response_Close, if_neg (by simp [strategic_response])]
  have h : ∀ m : List ℕ,
      m.foldl (fun acc i => acc.set i (x.getD i 0 + (-(0:ℚ)) * (θ.dropLast).getD i 0)) x = x := by
    intro m
    induction m with
    | nil => rfl
    | cons i rest ih =>
      rw [List.foldl_cons]
      have hv : x.getD i 0 + (-(0:ℚ)) * (θ.dropLast).getD i 0 = x.getD i 0 := by ring
      rw [hv, set_getD_self]
      exact ih
  exact h S

/-- Dictionary returned by `_get_info` of `creditScoring_v3.py`:
keys `true_label` and `next_obs`. -/
structure Info where
  true_label : ℤ
  next_obs : Option (List ℚ)
deriving DecidableEq, Repr

/-- State of a `creditScoring_v3` environment instance.  The source keeps a
train split and a test split selected by `self.mode`; the claims concern one
active split, so `xs`/`ys` hold the feature rows and labels of the split the
`mode` field selects (`train_x`/`train_y` in training mode).  The remaining
fields are `self.samplePointer`, `self.maximum_episode_length` and
`self.policy_weight`. -/
structure EnvState where
  xs : List (List ℚ)
  ys : List ℤ
  samplePointer : ℕ
  maximum_episode_length : ℕ
  policy_weight : List ℚ
deriving DecidableEq, Repr

/-- Constructor `__init__` of `creditScoring_v3.py` (lines 26-61): loads the
data (here passed in as `xs`/`ys`), sets `samplePointer = 0` and records the
policy weights and the maximum episode length. -/
def init_env (xs : List (List ℚ)) (ys : List ℤ) (policy_weight : List ℚ)
    (maximum_episode_length : ℕ) : EnvState :=
  ⟨xs, ys, 0, maximum_episode_length, policy_weight⟩

/-- Method `_get_obs` of `creditScoring_v3.py` (lines 213-230): applies the
configured strategic response to the sample at the cursor, raising
`ValueError` for an unknown response method.  `rm` is the module global
`response_method` and `ascent` abstracts the gradient-ascent loop of
`strategic_response_GA` (the debug print guarded by `trigger_once` is a side
effect outside the return value and is omitted). -/
def get_obs (ascent : List ℚ → List ℚ → List ℚ) (rm : String) (s : EnvState) :
    Except String (List ℚ) :=
  let sample := s.xs.getD s.samplePointer []
  if rm = "GA" then
    Except.ok (strategic_response_GA strategic_response ascent sample s.policy_weight)
  else if rm = "Close" then
    Except.ok (strategic_response_Close strategic_response sample s.policy_weight
      epsilon strat_features)
  else
    Except.error ("Unknown response method: " ++ rm)

/-- Method `_get_info` of `creditScoring_v3.py` (lines 232-261): returns the
true label at the cursor and, when `samplePointer + 1` is in range, the
manipulated next sample; for a response method that is neither `"GA"` nor
`"Close"` it sets `next_obs = None` (the `else` branch raises nothing). -/
def get_info (ascent : List ℚ → List ℚ → List ℚ) (rm : String) (s : EnvState) :
    Info :=
  let target := s.ys.getD s.samplePointer 0
  let max_len := s.xs.length
  let next_idx := s.samplePointer + 1
  let next_obs :=
    if next_idx < max_len then
      let next_sample := s.xs.getD next_idx []
      if rm = "GA" then
        some (strategic_response_GA strategic_response ascent next_sample s.policy_weight)
      else if rm = "Close" then
        some (strategic_response_Close strategic_response next_sample s.policy_weight
          epsilon strat_features)
      else
        none
    else
      none
  ⟨target, next_obs⟩

/-- Method `reset` of `creditScoring_v3.py` (lines 263-273): resets the cursor
to `0` and returns the (manipulated) observation together with the info
dictionary. -/
def reset (ascent : List ℚ → List ℚ → List ℚ) (rm : String) (s : EnvState) :
    Except String (List ℚ × Info × EnvState) :=
  let s0 : EnvState := { s with samplePointer := 0 }
  match get_obs ascent rm s0 with
  | Except.error e => Except.error e
  | Except.ok obs => Except.ok (obs, get_info ascent rm s0, s0)

/-- Return value of `step`: the tuple
`(next_obs, reward, terminated, truncated, info)` plus the mutated
environment state. -/
structure StepResult where
  next_obs : Option (List ℚ)
  reward : ℤ
  terminated : Bool
  truncated : Bool
  info : Info
  state : EnvState
deriving DecidableEq, Repr

/-- Reward dispatch of `step` (`creditScoring_v3.py` lines 279-286): four
labelled `if`/`elif` branches on `(action, label)`, the final `else` catching
everything that is not one of the three earlier patterns. -/
def step_reward (action label : ℤ) : ℤ :=
  if action = 0 ∧ label = 0 then 1
  else if action = 0 ∧ label = 1 then -1
  else if action = 1 ∧ label = 0 then -1
  else 1

/-- Method `step` of `creditScoring_v3.py` (lines 275-310): reads the label at
the current cursor to compute the ±1 reward, optionally replaces the policy
weights, decides `terminated`/`truncated` from the candidate next cursor, and
only when neither flag is set advances the cursor and produces the next
observation. -/
def step (ascent : List ℚ → List ℚ → List ℚ) (rm : String) (s : EnvState)
    (action : ℤ) (previous_policy_weight : Option (List ℚ)) :
    Except String StepResult :=
  let label := s.ys.getD s.samplePointer 0
  let reward : ℤ := step_reward action label
  let s1 : EnvState :=
    match previous_policy_weight with
    | some w => { s with policy_weight := w }
    | none => s
  let max_len := s1.xs.length
  let next_idx := s1.samplePointer + 1
  let terminated : Bool := decide (max_len ≤ next_idx)
  let truncated : Bool := decide (s1.maximum_episode_length < next_idx)
  if ¬(terminated || truncated) then
    let s2 : EnvState := { s1 with samplePointer := next_idx }
    match get_obs ascent rm s2 with
    | Except.error e => Except.error e
    | Except.ok obs =>
      Except.ok ⟨some obs, reward, terminated, truncated, get_info ascent rm s2, s2⟩
  else
    Except.ok ⟨none, reward, terminated, truncated, get_info ascent rm s1, s1⟩


/-- With the configured `"Close"` response method, `get_obs` never fails. -/
lemma get_obs_Close_ok (ascent : List ℚ → List ℚ → List ℚ) (s : EnvState) :
    get_obs ascent "Close" s =
      Except.ok (strategic_response_Close strategic_response
        (s.xs.getD s.samplePointer []) s.policy_weight epsilon strat_features) := rfl

/-- With the configured `"Close"` response method, `step` always returns a
result, and its reward, flags, cursor and info are as read off the code. -/
lemma step_Close_eq (ascent : List ℚ → List ℚ → List ℚ) (s : EnvState)
    (action : ℤ) (ppw : Option (List ℚ)) :
    step ascent "Close" s action ppw =
      (let label := s.ys.getD s.samplePointer 0
       let reward : ℤ := step_reward action label
       let s1 : EnvState :=
         match ppw with
         | some w => { s with policy_weight := w }
         | none => s
       let terminated : Bool := decide (s1.xs.length ≤ s1.samplePointer + 1)
       let truncated : Bool := decide (s1.maximum_episode_length < s1.samplePointer + 1)
       if ¬(terminated || truncated) then
         let s2 : EnvState := { s1 with samplePointer := s1.samplePointer + 1 }
         Except.ok ⟨some (strategic_response_Close strategic_response
             (s2.xs.getD s2.samplePointer []) s2.policy_weight epsilon strat_features),
           reward, terminated, truncated, get_info ascent "Close" s2, s2⟩
       else
         Except.ok ⟨none, reward, terminated, truncated, get_info ascent "Close" s1, s1⟩) := by
  rw [step.eq_def]
  simp only [get_obs_Close_ok]

/-- Under the configured `"Close"` response method every `step` call returns
`Except.ok`, with reward `step_reward action label` for the label at the
pre-advance cursor and with the two flags decided by their two separate bounds. -/
lemma step_Close_fields (ascent : List ℚ → List ℚ → List ℚ) (s : EnvState)
    (action : ℤ) (ppw : Option (List ℚ)) :
    ∃ r : StepResult, step ascent "Close" s action ppw = Except.ok r ∧
      r.reward = step_reward action (s.ys.getD s.samplePointer 0) ∧
      r.terminated = decide (s.xs.length ≤ s.samplePointer + 1) ∧
      r.truncated = decide (s.maximum_episode_length < s.samplePointer + 1) := by
  rw [step_Close_eq]
  cases ppw <;> simp only [] <;> split <;> exact ⟨_, rfl, rfl, rfl, rfl⟩

/-- C3: while the split is active, a `step` call with a binary action is
rewarded `+1` exactly when the action equals the true label read at the
pre-advance cursor, and `−1` otherwise. -/
theorem step_reward_formula (ascent : List ℚ → List ℚ → List ℚ) (s : EnvState)
    (action : ℤ) (ppw : Option (List ℚ))
    (hact : action = 0 ∨ action = 1)
    (hptr : s.samplePointer < s.ys.length)
    (hlab : s.ys.getD s.samplePointer 0 = 0 ∨ s.ys.getD s.samplePointer 0 = 1) :
    ∃ r : StepResult, step ascent response_method s action ppw = Except.ok r ∧
      r.reward = (if action = s.ys.getD s.samplePointer 0 then 1 else -1) := by
  obtain ⟨r, hr, hrew, -, -⟩ := step_Close_fields ascent s action ppw
  refine ⟨r, by rwa [response_method], ?_⟩
  rw [hrew, step_reward]
  rcases hact with ha | ha <;> rcases hlab with hl | hl <;> rw [ha, hl] <;> norm_num

/-- Instantiation of `step_reward_formula` on a two-sample split with
`action = 0` against true label `1`. -/
theorem step_reward_formula_witness :
    ∃ r : StepResult,
      step (fun x _ => x) response_method (init_env [[1], [2]] [1, 0] [1, 1] 5) 0 none =
        Except.ok r ∧
      r.reward = (if (0 : ℤ) = ([(1 : ℤ), 0].getD 0 0) then 1 else -1) :=
  step_reward_formula (fun x _ => x) (init_env [[1], [2]] [1, 0] [1, 1] 5) 0 none
    (Or.inl rfl) (by decide) (by decide)

/-- C10: a `step` call with an action that is neither `0` nor `1` falls
through every labelled branch of the reward dispatch and is rewarded `+1`
regardless of the true label. -/
theorem step_reward_unknown_action (ascent : List ℚ → List ℚ → List ℚ)
    (s : EnvState) (action : ℤ) (ppw : Option (List ℚ))
    (h0 : action ≠ 0) (h1 : action ≠ 1) :
    ∃ r : StepResult, step ascent response_method s action ppw = Except.ok r ∧
      r.reward = 1 := by
  obtain ⟨r, hr, hrew, -, -⟩ := step_Close_fields ascent s action ppw
  refine ⟨r, by rwa [response_method], ?_⟩
  rw [hrew]
  simp [step_reward, h0, h1]

/-- Instantiation of `step_reward_unknown_action` at `action = 5` against a
split whose current true label is `0`. -/
theorem step_reward_unknown_action_witness :
    ∃ r : StepResult,
      step (fun x _ => x) response_method (init_env [[1], [2]] [0, 1] [1, 1] 5) 5 none =
        Except.ok r ∧
      r.reward = 1 :=
  step_reward_unknown_action (fun x _ => x) (init_env [[1], [2]] [0, 1] [1, 1] 5) 5 none
    (by decide) (by decide)

/-- C8: every `step` call returns `truncated = true` iff the post-advance
cursor exceeds `maximum_episode_length`, and `terminated = true` iff the
post-advance cursor reaches the split length — two independent bounds. -/
theorem step_truncated_iff (ascent : List ℚ → List ℚ → List ℚ) (s : EnvState)
    (action : ℤ) (ppw : Option (List ℚ)) :
    ∃ r : StepResult, step ascent response_method s action ppw = Except.ok r ∧
      (r.truncated = true ↔ s.maximum_episode_length < s.samplePointer + 1) ∧
      (r.terminated = true ↔ s.xs.length ≤ s.samplePointer + 1) := by
  obtain ⟨r, hr, -, hterm, htrunc⟩ := step_Close_fields ascent s action ppw
  exact ⟨r, by rwa [response_method], by rw [htrunc]; simp, by rw [hterm]; simp⟩

/-- Feeding the environment its own true label as the action always earns
reward `+1`: both matching branches of the dispatch return `1`, and equal
non-binary values fall through to the final `else`, which also returns `1`. -/
lemma step_reward_self (label : ℤ) : step_reward label label = 1 := by
  rw [step_reward]
  by_cases h : label = 0 <;> simp [h]

/-- Terminal `step` under `"Close"`: when the candidate next cursor reaches
the split length, the cursor is not advanced and the call returns no
observation. -/
lemma step_Close_terminal (ascent : List ℚ → List ℚ → List ℚ) (s : EnvState)
    (action : ℤ) (h : s.xs.length ≤ s.samplePointer + 1) :
    step ascent "Close" s action none =
      Except.ok ⟨none, step_reward action (s.ys.getD s.samplePointer 0), true,
        decide (s.maximum_episode_length < s.samplePointer + 1),
        get_info ascent "Close" s, s⟩ := by
  have ht : decide (s.xs.length ≤ s.samplePointer + 1) = true := by simpa using h
  rw [step_Close_eq]
  simp [ht]

/-- Non-terminal `step` under `"Close"`: when neither bound is hit, the
cursor advances and the manipulated next sample is returned. -/
lemma step_Close_advance (ascent : List ℚ → List ℚ → List ℚ) (s : EnvState)
    (action : ℤ) (h1 : s.samplePointer + 1 < s.xs.length)
    (h2 : s.samplePointer + 1 ≤ s.maximum_episode_length) :
    step ascent "Close" s action none =
      Except.ok ⟨some (strategic_response_Close strategic_response
          (s.xs.getD (s.samplePointer + 1) []) s.policy_weight epsilon strat_features),
        step_reward action (s.ys.getD s.samplePointer 0), false, false,
        get_info ascent "Close" { s with samplePointer := s.samplePointer + 1 },
        { s with samplePointer := s.samplePointer + 1 }⟩ := by
  have ht : decide (s.xs.length ≤ s.samplePointer + 1) = false := by
    simp only [decide_eq_false_iff_not]; omega
  have htr : decide (s.maximum_episode_length < s.samplePointer + 1) = false := by
    simp only [decide_eq_false_iff_not]; omega
  rw [step_Close_eq]
  simp [ht, htr]

/-- Driver for C5: starting from state `s`, perform `n` calls to `step`,
feeding as action the true label at the current cursor, and collect the
returned `(reward, terminated)` pairs (stopping early on an exception). -/
def play (ascent : List ℚ → List ℚ → List ℚ) (rm : String) :
    EnvState → ℕ → List (ℤ × Bool)
  | _, 0 => []
  | s, n + 1 =>
    match step ascent rm s (s.ys.getD s.samplePointer 0) none with
    | Except.error _ => []
    | Except.ok r => (r.reward, r.terminated) :: play ascent rm r.state n

/-- Main induction for C5: with `n ≥ 1` samples left (`samplePointer + n`
equals the split length) and truncation impossible, playing the true labels
yields `n` rewards of `+1` with `terminated` exactly on the last step. -/
lemma play_true_labels (ascent : List ℚ → List ℚ → List ℚ) (n : ℕ) :
    ∀ s : EnvState, 1 ≤ n → s.samplePointer + n = s.xs.length →
      s.xs.length ≤ s.maximum_episode_length →
      play ascent response_method s n =
        (List.range n).map (fun k => ((1 : ℤ), decide (k + 1 = n))) := by
  induction n with
  | zero => intro s h1 _ _; cases h1
  | succ m ih =>
    intro s _ hlen hmax
    rcases Nat.eq_zero_or_pos m with hm | hm
    · subst hm
      have hterm : s.xs.length ≤ s.samplePointer + 1 := by omega
      rw [play, response_method, step_Close_terminal ascent s _ hterm]
      simp [play, step_reward_self, List.range_succ]
    · have h1 : s.samplePointer + 1 < s.xs.length := by omega
      have h2 : s.samplePointer + 1 ≤ s.maximum_episode_length := by omega
      rw [play, response_method, step_Close_advance ascent s _ h1 h2]
      have ihs := ih { s with samplePointer := s.samplePointer + 1 } hm
        (by simp; omega) (by simpa using hmax)
      rw [response_method] at ihs
      show ((step_reward (s.ys.getD s.samplePointer 0) (s.ys.getD s.samplePointer 0),
          (false : Bool)) ::
        play ascent "Close" { s with samplePointer := s.samplePointer + 1 } m) = _
      rw [step_reward_self, ihs, List.range_succ_eq_map, List.map_cons, List.map_map]
      have hhead : (decide (0 + 1 = m + 1)) = false := by
        simp only [decide_eq_false_iff_not]; omega
      rw [hhead]
      congr 1
      apply List.map_congr_left
      intro k _
      simp only [Function.comp_apply]
      have : decide (k + 1 = m) = decide (Nat.succ k + 1 = m + 1) := by
        simp only [decide_eq_decide]; omega
      rw [this]

/-- C5: for an active split of length `L ≥ 1` whose label sequence has the
same length and with `maximum_episode_length ≥ L`, the episode `reset()`
followed by `L` calls of `step` on the true label yields exactly `L` rewards,
all `+1`, with `terminated = true` exactly once, on the `L`-th call. -/
theorem episode_true_labels (ascent : List ℚ → List ℚ → List ℚ) (s : EnvState)
    (hL : 1 ≤ s.xs.length) (hys : s.ys.length = s.xs.length)
    (hmax : s.xs.length ≤ s.maximum_episode_length) :
    ∃ obs info s0, reset ascent response_method s = Except.ok (obs, info, s0) ∧
      play ascent response_method s0 s.xs.length =
        (List.range s.xs.length).map
          (fun k => ((1 : ℤ), decide (k + 1 = s.xs.length))) := by
  have hreset : reset ascent response_method s =
      Except.ok (strategic_response_Close strategic_response
          (s.xs.getD 0 []) s.policy_weight epsilon strat_features,
        get_info ascent "Close" { s with samplePointer := 0 },
        { s with samplePointer := 0 }) := by
    simp only [reset, response_method, get_obs_Close_ok]
  exact ⟨_, _, { s with samplePointer := 0 }, hreset,
    play_true_labels ascent s.xs.length { s with samplePointer := 0 }
      hL (by simp) hmax⟩

/-- Instantiation of `episode_true_labels` on a concrete split of length 2:
rewards `[+1, +1]`, termination on the second step only. -/
theorem episode_true_labels_witness :
    ∃ obs info s0,
      reset (fun x _ => x) response_method (init_env [[1], [2]] [0, 1] [1, 1] 5) =
        Except.ok (obs, info, s0) ∧
      play (fun x _ => x) response_method s0 2 =
        (List.range 2).map (fun k => ((1 : ℤ), decide (k + 1 = 2))) :=
  episode_true_labels (fun x _ => x) (init_env [[1], [2]] [0, 1] [1, 1] 5)
    (by decide) (by decide) (by decide)

/-- C6 counterexample: `step` called on a freshly constructed environment
(no `reset` ever issued) returns an ordinary result — reward computed at
cursor `0` — instead of an error, and `step` called again after a
`terminated = true` step also returns an ordinary result; the claimed loud
failure does not exist in the code. -/
theorem step_sequencing_counterexample :
    (∃ r : StepResult,
      step (fun x _ => x) response_method (init_env [[1], [2]] [0, 1] [1, 1] 5) 0 none =
        Except.ok r ∧ r.reward = 1) ∧
    (∃ r₁ r₂ : StepResult,
      step (fun x _ => x) response_method (init_env [[1]] [0] [1, 1] 5) 0 none =
        Except.ok r₁ ∧ r₁.terminated = true ∧
      step (fun x _ => x) response_method r₁.state 0 none = Except.ok r₂ ∧
      r₂.terminated = true ∧ r₂.state.samplePointer = 0) := by
  exact ⟨⟨_, rfl, rfl⟩, ⟨_, _, rfl, rfl, rfl, rfl, rfl⟩⟩

/-- C6 as amended: `step` performs no sequencing check.  Called on a freshly
constructed environment (before any `reset`) it silently computes a result at
cursor `0`, and a `step` whose candidate next cursor reaches the split length
returns `terminated = true` while leaving the cursor unchanged, so that a
further `step` without an intervening `reset` silently recomputes at that
same cursor instead of failing. -/
theorem step_sequencing_amended (ascent : List ℚ → List ℚ → List ℚ) :
    (∀ (xs : List (List ℚ)) (ys : List ℤ) (pw : List ℚ) (mel : ℕ)
       (action : ℤ) (ppw : Option (List ℚ)),
      ∃ r : StepResult,
        step ascent response_method (init_env xs ys pw mel) action ppw = Except.ok r) ∧
    (∀ (s : EnvState) (action : ℤ) (ppw : Option (List ℚ)),
      s.xs.length ≤ s.samplePointer + 1 →
      ∃ r : StepResult,
        step ascent response_method s action ppw = Except.ok r ∧
        r.terminated = true ∧ r.state.samplePointer = s.samplePointer ∧
        r.state.xs = s.xs) := by
  constructor
  · intro xs ys pw mel action ppw
    obtain ⟨r, hr, -⟩ := step_Close_fields ascent (init_env xs ys pw mel) action ppw
    exact ⟨r, by rwa [response_method]⟩
  · intro s action ppw h
    have ht : decide (s.xs.length ≤ s.samplePointer + 1) = true := by simpa using h
    rw [response_method, step_Close_eq]
    cases ppw <;> simp only [] <;> rw [if_neg (by simp [ht])] <;>
      exact ⟨_, rfl, by simp [ht], rfl, rfl⟩

/-- Instantiation of `step_sequencing_amended`: on a one-sample split the
first `step` (no reset issued) succeeds with `terminated = true` and an
unchanged cursor. -/
theorem step_sequencing_amended_witness :
    ∃ r : StepResult,
      step (fun x _ => x) response_method (init_env [[1]] [0] [1, 1] 5) 0 none =
        Except.ok r ∧
      r.terminated = true ∧ r.state.samplePointer = 0 ∧ r.state.xs = [[1]] :=
  (step_sequencing_amended (fun x _ => x)).2 (init_env [[1]] [0] [1, 1] 5) 0 none
    (by decide)

/-- C7 counterexample: with an unknown response method, the look-ahead path
of `_get_info` does not raise: it silently returns `next_obs = None`, and a
truncated `step` call that consults that path completes with an ordinary
result instead of aborting. -/
theorem unknown_method_counterexample :
    get_info (fun x _ => x) "Foo" (init_env [[1], [2], [3]] [0, 1, 0] [1, 1] 5) =
      ⟨0, none⟩ ∧
    (∃ r : StepResult,
      step (fun x _ => x) "Foo" (init_env [[1], [2], [3]] [0, 1, 0] [1, 1] 0) 0 none =
        Except.ok r ∧ r.truncated = true ∧ r.info.next_obs = none) := by
  exact ⟨rfl, ⟨_, rfl, rfl, rfl⟩⟩

/-- C7 as amended: with a response-method value that is neither `"GA"` nor
`"Close"`, `_get_obs` fails with the clear `Unknown response method` error
(so `reset`, which produces the first observation, fails loudly), but the
look-ahead next-observation path of `_get_info` does not fail: whenever the
look-ahead index is in range it silently sets `next_obs = None`. -/
theorem unknown_method_amended (ascent : List ℚ → List ℚ → List ℚ)
    (rm : String) (s : EnvState) (hga : rm ≠ "GA") (hclose : rm ≠ "Close") :
    get_obs ascent rm s = Except.error ("Unknown response method: " ++ rm) ∧
    reset ascent rm s = Except.error ("Unknown response method: " ++ rm) ∧
    (s.samplePointer + 1 < s.xs.length → (get_info ascent rm s).next_obs = none) := by
  have hobs : ∀ t : EnvState,
      get_obs ascent rm t = Except.error ("Unknown response method: " ++ rm) := by
    intro t
    simp only [get_obs]
    rw [if_neg hga, if_neg hclose]
  refine ⟨hobs s, ?_, ?_⟩
  · rw [reset, hobs]
  · intro h
    simp only [get_info]
    rw [if_pos h, if_neg hga, if_neg hclose]

/-- Instantiation of `unknown_method_amended` at the unknown method name
`"Foo"` on a concrete three-sample environment. -/
theorem unknown_method_amended_witness :
    get_obs (fun x _ => x) "Foo" (init_env [[1], [2], [3]] [0, 1, 0] [1, 1] 5) =
      Except.error "Unknown response method: Foo" ∧
    reset (fun x _ => x) "Foo" (init_env [[1], [2], [3]] [0, 1, 0] [1, 1] 5) =
      Except.error "Unknown response method: Foo" ∧
    (get_info (fun x _ => x) "Foo"
        (init_env [[1], [2], [3]] [0, 1, 0] [1, 1] 5)).next_obs = none := by
  obtain ⟨h1, h2, h3⟩ := unknown_method_amended (fun x _ => x) "Foo"
    (init_env [[1], [2], [3]] [0, 1, 0] [1, 1] 5) (by decide) (by decide)
  exact ⟨h1, h2, h3 (by decide)⟩

/-- Module-level constant `clipVal_td = 10.0` of `principal_v5.py`. -/
def clipVal_td : ℚ := 10

/-- Module-level constant `clipVal_grad_log_pi = 10.0` of `principal_v5.py`. -/
def clipVal_grad_log_pi : ℚ := 10

/-- Module-level constant `clipVal_policyWeight = 10.0` of `principal_v5.py`. -/
def clipVal_policyWeight : ℚ := 10

/-- Scalar `np.clip(x, lo, hi)`: equivalent to `min(max(x, lo), hi)`. -/
def clip (x lo hi : ℚ) : ℚ := min (max x lo) hi

/-- Inner product `np.dot` of two equal-length 1-D arrays. -/
def dot (a b : List ℚ) : ℚ := (List.zipWith (fun x y => x * y) a b).sum

/-- One buffered transition of `Principal_v5`: the tuple
`(obs, action, reward, terminated, next_obs, true_label)` appended in
`update` (`principal_v5.py` line 149). -/
structure Transition where
  obs : List ℚ
  action : ℤ
  reward : ℚ
  terminated : Bool
  next_obs : Option (List ℚ)
  true_label : ℤ
deriving DecidableEq, Repr

/-- Learning state of a `Principal_v5` instance: critic weights `q_weights`,
policy weights `previous_policy_weight`, the transition buffer with its fixed
capacity `buffer_size` (deque `maxlen`), the `batch_update_count` counter, and
the hyperparameters.  The purely observational bookkeeping lists
(`training_error`, `training_rewards`, accuracy records, …) are omitted: no
claim reads them. -/
structure Agent where
  q_weights : List ℚ
  previous_policy_weight : List ℚ
  buffer : List Transition
  buffer_size : ℕ
  batch_update_count : ℕ
  lr_c : ℚ
  lr_a : ℚ
  discount_factor : ℚ
deriving DecidableEq, Repr

/-- Constructor `__init__` of `Principal_v5` (`principal_v5.py` lines 27-73):
`q_weights = np.ones(dimension+1+1) * 0.01`, an empty deque of capacity
`buffer_size`, zero `batch_update_count`; `previous_policy_weight` is drawn
from `np.random.normal` in the source and is therefore passed in here. -/
def init_agent (previous_policy_weight : List ℚ) (dimension : ℕ)
    (learning_rate_critic learning_rate_actor : ℚ) (buffer_size : ℕ)
    (discount_factor : ℚ) : Agent :=
  ⟨List.replicate (dimension + 1 + 1) (1 / 100), previous_policy_weight, [],
    buffer_size, 0, learning_rate_critic, learning_rate_actor, discount_factor⟩

/-- Body of the `for obs, action, reward, terminated, next_obs, true_label in
batch` loop of `batch_update` (`principal_v5.py` lines 97-133), processing one
transition against the weights as they stand at that moment.  The condition
`if not terminated and next_obs is not None` is modelled by the match on
`next_obs` combined with the check on `terminated`.  `sigma` abstracts the
transcendental `1 / (1 + np.exp(-logits))`; the `accs` bookkeeping is
omitted. -/
def train_step (sigma : ℚ → ℚ) (a : Agent) (t : Transition) : Agent :=
  let q_input := t.obs ++ [(t.action : ℚ)]
  let q_value := dot a.q_weights q_input
  let max_q_next : ℚ :=
    match t.next_obs with
    | some nx =>
      if t.terminated = false then
        max (dot a.q_weights (nx ++ [0])) (dot a.q_weights (nx ++ [1]))
      else 0
    | none => 0
  let td_target := t.reward + a.discount_factor * max_q_next
  let td_error := clip (td_target - q_value) (-clipVal_td) clipVal_td
  let q_weights :=
    List.zipWith (fun w x => w + a.lr_c * td_error * x) a.q_weights q_input
  let logits := dot a.previous_policy_weight t.obs
  let prob := sigma logits
  let grad_log_pi := t.obs.map (fun x =>
    clip (((t.action : ℚ) - prob) * x) (-clipVal_grad_log_pi) clipVal_grad_log_pi)
  let weight_update := grad_log_pi.map (fun g =>
    clip (a.lr_a * td_error * g / (a.buffer_size : ℚ))
      (-clipVal_policyWeight) clipVal_policyWeight)
  let previous_policy_weight :=
    List.zipWith (fun w u => w + u) a.previous_policy_weight weight_update
  { a with q_weights := q_weights, previous_policy_weight := previous_policy_weight }

/-- Method `batch_update` of `principal_v5.py` (lines 88-136): early return on
a buffer below capacity, otherwise increment `batch_update_count`, process
the whole buffer in the `np.random.shuffle`d order (abstracted by the
`shuffle` argument) transition by transition, and clear the buffer.  The
`training_batch_acc` record is omitted. -/
def batch_update (sigma : ℚ → ℚ) (shuffle : List Transition → List Transition)
    (a : Agent) : Agent :=
  if a.buffer.length < a.buffer_size then a
  else
    let a1 := { a with batch_update_count := a.batch_update_count + 1 }
    let batch := shuffle a.buffer
    let a2 := batch.foldl (train_step sigma) a1
    { a2 with buffer := [] }

/-- Append to a `collections.deque` with `maxlen`: the new element goes to
the right and elements are discarded from the left so that at most `maxlen`
remain. -/
def deque_append (maxlen : ℕ) (l : List Transition) (x : Transition) :
    List Transition :=
  let l1 := l ++ [x]
  l1.drop (l1.length - maxlen)

/-- Method `update` of `principal_v5.py` (lines 138-175) — the spec's
`observe`: build the transition from the arguments and the info dictionary,
append it to the buffer, and invoke `batch_update` when the buffer has
reached capacity.  The trailing bookkeeping records (expected accuracy,
weight snapshots, reward history) are observational and omitted; `prob` only
feeds them. -/
def update (sigma : ℚ → ℚ) (shuffle : List Transition → List Transition)
    (a : Agent) (obs : List ℚ) (action : ℤ) (reward : ℚ) (terminated : Bool)
    (info : Info) (prob : ℚ) : Agent :=
  let true_label := info.true_label
  let next_obs := info.next_obs
  let sample : Transition := ⟨obs, action, reward, terminated, next_obs, true_label⟩
  let a1 := { a with buffer := deque_append a.buffer_size a.buffer sample }
  if a1.buffer_size ≤ a1.buffer.length then batch_update sigma shuffle a1 else a1

/-- Modelled from the spec wording of the batch update (C2):
`Q(obs, a) = ActionValueWeights · concat(obs, a)`. -/
def Q (w obs : List ℚ) (act : ℚ) : ℚ := dot w (obs ++ [act])

/-- Modelled from the spec wording of the batch update (C2): target
`r + γ·max(Q(next_obs,0), Q(next_obs,1))` if not terminated and `next_obs`
present, else `r + γ·0`; TD error clipped to `[−10,10]`; critic increment
`lr_critic · td_error · concat(obs, action)`; actor gradient
`(action − p)·obs` with `p` recomputed from the current policy weights and
clipped elementwise to `[−10,10]`; policy increment
`(lr_actor · td_error · grad) / buffer_capacity`, itself clipped to
`[−10,10]` before being applied. -/
def spec_train_step (sigma : ℚ → ℚ) (a : Agent) (t : Transition) : Agent :=
  let td_target : ℚ :=
    if t.terminated = false ∧ t.next_obs ≠ none then
      t.reward + a.discount_factor *
        max (Q a.q_weights (t.next_obs.getD []) 0) (Q a.q_weights (t.next_obs.getD []) 1)
    else t.reward + a.discount_factor * 0
  let td_error := clip (td_target - Q a.q_weights t.obs (t.action : ℚ)) (-10) 10
  let q_weights :=
    List.zipWith (fun w x => w + a.lr_c * td_error * x) a.q_weights
      (t.obs ++ [(t.action : ℚ)])
  let p := sigma (dot a.previous_policy_weight t.obs)
  let grad := (t.obs.map (fun x => ((t.action : ℚ) - p) * x)).map
    (fun g => clip g (-10) 10)
  let upd := grad.map (fun g =>
    clip (a.lr_a * td_error * g / (a.buffer_size : ℚ)) (-10) 10)
  { a with q_weights := q_weights,
           previous_policy_weight :=
             List.zipWith (fun w u => w + u) a.previous_policy_weight upd }

/-- The loop body of `batch_update` coincides with the spec-worded update
rule for every agent state and transition. -/
lemma train_step_eq_spec (sigma : ℚ → ℚ) (a : Agent) (t : Transition) :
    train_step sigma a t = spec_train_step sigma a t := by
  rcases ht : t.next_obs with _ | nx <;> rcases hterm : t.terminated <;>
    simp [train_step, spec_train_step, Q, ht, hterm, List.map_map,
      clipVal_td, clipVal_grad_log_pi, clipVal_policyWeight, Function.comp_def]

/-- C2: in `batch_update`, each buffered transition is processed in turn:
the critic and policy updates follow exactly the claimed TD/clip formulas
(`train_step` equals the spec-worded `spec_train_step`), each transition sees
the weights as they stand after the previous transitions of the same pass
(the fold structure), and on a full buffer `batch_update` is exactly this
fold over the shuffled buffer followed by clearing the buffer. -/
theorem batch_update_formulas (sigma : ℚ → ℚ)
    (shuffle : List Transition → List Transition) :
    (∀ (a : Agent) (t : Transition), train_step sigma a t = spec_train_step sigma a t) ∧
    (∀ (a : Agent) (ts : List Transition) (t : Transition),
      (ts ++ [t]).foldl (train_step sigma) a =
        spec_train_step sigma (ts.foldl (train_step sigma) a) t) ∧
    (∀ a : Agent, a.buffer.length = a.buffer_size →
      batch_update sigma shuffle a =
        { (shuffle a.buffer).foldl (train_step sigma)
            { a with batch_update_count := a.batch_update_count + 1 } with
          buffer := [] }) := by
  refine ⟨train_step_eq_spec sigma, ?_, ?_⟩
  · intro a ts t
    rw [List.foldl_append, List.foldl_cons, List.foldl_nil, train_step_eq_spec]
  · intro a ha
    rw [batch_update, if_neg (by omega)]

/-- Instantiation of `batch_update_formulas` on a one-transition buffer at
capacity one. -/
theorem batch_update_formulas_witness :
    batch_update (fun _ => 1 / 2) id
        ⟨[1, 1], [0], [⟨[1], 1, 1, true, none, 1⟩], 1, 0, 1, 1, 1⟩ =
      { (id [(⟨[1], 1, 1, true, none, 1⟩ : Transition)]).foldl
          (train_step (fun _ => 1 / 2))
          { (⟨[1, 1], [0], [⟨[1], 1, 1, true, none, 1⟩], 1, 0, 1, 1, 1⟩ : Agent) with
            batch_update_count := 0 + 1 } with
        buffer := [] } :=
  (batch_update_formulas (fun _ => 1 / 2) id).2.2
    ⟨[1, 1], [0], [⟨[1], 1, 1, true, none, 1⟩], 1, 0, 1, 1, 1⟩ rfl

/-- The per-transition update touches only the two weight vectors: buffer,
capacity and counter are untouched by a fold of `train_step`. -/
lemma foldl_train_step_fields (sigma : ℚ → ℚ) (ts : List Transition) :
    ∀ b : Agent,
      (ts.foldl (train_step sigma) b).buffer = b.buffer ∧
      (ts.foldl (train_step sigma) b).buffer_size = b.buffer_size ∧
      (ts.foldl (train_step sigma) b).batch_update_count = b.batch_update_count := by
  induction ts with
  | nil => exact fun b => ⟨rfl, rfl, rfl⟩
  | cons t rest ih =>
    intro b
    rw [List.foldl_cons]
    exact ih (train_step sigma b t)

/-- On a buffer at (or beyond) capacity, `batch_update` clears the buffer,
increments the counter once, and keeps the capacity. -/
lemma batch_update_full (sigma : ℚ → ℚ) (shuffle : List Transition → List Transition)
    (a : Agent) (h : ¬ a.buffer.length < a.buffer_size) :
    (batch_update sigma shuffle a).buffer = [] ∧
    (batch_update sigma shuffle a).batch_update_count = a.batch_update_count + 1 ∧
    (batch_update sigma shuffle a).buffer_size = a.buffer_size := by
  rw [batch_update, if_neg h]
  refine ⟨rfl, ?_, ?_⟩
  · exact (foldl_train_step_fields sigma (shuffle a.buffer)
      { a with batch_update_count := a.batch_update_count + 1 }).2.2
  · exact (foldl_train_step_fields sigma (shuffle a.buffer)
      { a with batch_update_count := a.batch_update_count + 1 }).2.1

/-- One `update` call on a below-capacity buffer: the transition is appended;
exactly when the buffer thereby reaches capacity, a batch update runs (the
counter increments) and the buffer is emptied; below capacity, nothing else
happens. -/
lemma update_char (sigma : ℚ → ℚ) (shuffle : List Transition → List Transition)
    (a : Agent) (obs : List ℚ) (action : ℤ) (reward : ℚ) (terminated : Bool)
    (info : Info) (prob : ℚ) (h : a.buffer.length < a.buffer_size) :
    (update sigma shuffle a obs action reward terminated info prob).buffer =
      (if a.buffer.length + 1 = a.buffer_size then []
       else a.buffer ++ [⟨obs, action, reward, terminated, info.next_obs, info.true_label⟩]) ∧
    (update sigma shuffle a obs action reward terminated info prob).batch_update_count =
      (if a.buffer.length + 1 = a.buffer_size then a.batch_update_count + 1
       else a.batch_update_count) ∧
    (update sigma shuffle a obs action reward terminated info prob).buffer_size =
      a.buffer_size := by
  have hde : deque_append a.buffer_size a.buffer
      ⟨obs, action, reward, terminated, info.next_obs, info.true_label⟩ =
      a.buffer ++ [⟨obs, action, reward, terminated, info.next_obs, info.true_label⟩] := by
    rw [deque_append]
    simp only [List.length_append, List.length_cons, List.length_nil]
    rw [Nat.sub_eq_zero_of_le (by omega), List.drop_zero]
  rw [update]
  simp only [hde]
  by_cases hfull : a.buffer.length + 1 = a.buffer_size
  · rw [if_pos (by simp; omega)]
    have hb := batch_update_full sigma shuffle
      { a with buffer := a.buffer ++ [⟨obs, action, reward, terminated, info.next_obs, info.true_label⟩] }
      (by simp; omega)
    rw [if_pos hfull, if_pos hfull]
    exact ⟨hb.1, hb.2.1, hb.2.2⟩
  · rw [if_neg (by simp; omega)]
    rw [if_neg hfull, if_neg hfull]
    exact ⟨rfl, rfl, rfl⟩

/-- Argument record of one `update` (observe) call. -/
structure UpdateArgs where
  obs : List ℚ
  action : ℤ
  reward : ℚ
  terminated : Bool
  info : Info
  prob : ℚ
deriving DecidableEq, Repr

/-- Driver for C4: a sequence of `update` (observe) calls. -/
def observe_fold (sigma : ℚ → ℚ) (shuffle : List Transition → List Transition)
    (a : Agent) (inputs : List UpdateArgs) : Agent :=
  inputs.foldl (fun a inp =>
    update sigma shuffle a inp.obs inp.action inp.reward inp.terminated inp.info inp.prob) a

/-- The strict-below-capacity invariant is preserved by any sequence of
`update` calls, and the capacity never changes. -/
lemma observe_fold_invariant (sigma : ℚ → ℚ)
    (shuffle : List Transition → List Transition) (inputs : List UpdateArgs) :
    ∀ a : Agent, a.buffer.length < a.buffer_size →
      (observe_fold sigma shuffle a inputs).buffer.length <
        (observe_fold sigma shuffle a inputs).buffer_size ∧
      (observe_fold sigma shuffle a inputs).buffer_size = a.buffer_size := by
  induction inputs with
  | nil => exact fun a ha => ⟨ha, rfl⟩
  | cons inp rest ih =>
    intro a ha
    obtain ⟨hbuf, hcnt, hsize⟩ := update_char sigma shuffle a inp.obs inp.action
      inp.reward inp.terminated inp.info inp.prob ha
    have hstep : (update sigma shuffle a inp.obs inp.action inp.reward
        inp.terminated inp.info inp.prob).buffer.length <
        (update sigma shuffle a inp.obs inp.action inp.reward
          inp.terminated inp.info inp.prob).buffer_size := by
      rw [hbuf, hsize]
      by_cases hfull : a.buffer.length + 1 = a.buffer_size
      · rw [if_pos hfull]; simpa using lt_of_le_of_lt (Nat.zero_le _) ha
      · rw [if_neg hfull]; simp; omega
    have := ih _ hstep
    rw [observe_fold, List.foldl_cons]
    exact ⟨(this).1, (this).2.trans hsize⟩

/-- C4: starting from a freshly constructed agent, the buffer length never
exceeds the capacity after any sequence of observe (`update`) calls; and one
`update` on a below-capacity buffer triggers the batch update exactly when
the buffer reaches capacity — the counter increments and the buffer is
emptied then, and only then. -/
theorem buffer_capacity_invariant (sigma : ℚ → ℚ)
    (shuffle : List Transition → List Transition) :
    (∀ (ppw : List ℚ) (dimension : ℕ) (lrc lra gam : ℚ) (N : ℕ), 1 ≤ N →
      ∀ inputs : List UpdateArgs,
        (observe_fold sigma shuffle (init_agent ppw dimension lrc lra N gam)
          inputs).buffer.length ≤ N) ∧
    (∀ (a : Agent) (obs : List ℚ) (action : ℤ) (reward : ℚ) (terminated : Bool)
       (info : Info) (prob : ℚ), a.buffer.length < a.buffer_size →
      (update sigma shuffle a obs action reward terminated info prob).buffer =
        (if a.buffer.length + 1 = a.buffer_size then []
         else a.buffer ++
           [⟨obs, action, reward, terminated, info.next_obs, info.true_label⟩]) ∧
      (update sigma shuffle a obs action reward terminated info prob).batch_update_count =
        (if a.buffer.length + 1 = a.buffer_size then a.batch_update_count + 1
         else a.batch_update_count)) := by
  constructor
  · intro ppw dimension lrc lra gam N hN inputs
    have h0 : (init_agent ppw dimension lrc lra N gam).buffer.length <
        (init_agent ppw dimension lrc lra N gam).buffer_size := by
      simp [init_agent]; omega
    obtain ⟨hlt, hsz⟩ := observe_fold_invariant sigma shuffle inputs _ h0
    have : (observe_fold sigma shuffle (init_agent ppw dimension lrc lra N gam)
        inputs).buffer_size = N := hsz
    omega
  · intro a obs action reward terminated info prob h
    obtain ⟨h1, h2, -⟩ := update_char sigma shuffle a obs action reward terminated
      info prob h
    exact ⟨h1, h2⟩

/-- Instantiation of `buffer_capacity_invariant` at capacity 2 with three
observe calls, and one `update` call on an empty buffer of capacity 2. -/
theorem buffer_capacity_invariant_witness :
    (observe_fold (fun _ => 1 / 2) id (init_agent [0, 0] 1 1 1 2 1)
        [⟨[1, 1], 1, 1, false, ⟨1, none⟩, 1 / 2⟩, ⟨[1, 1], 0, -1, true, ⟨0, none⟩, 1 / 2⟩,
         ⟨[2, 1], 1, 1, true, ⟨1, none⟩, 1 / 2⟩]).buffer.length ≤ 2 ∧
    (update (fun _ => 1 / 2) id (init_agent [0, 0] 1 1 1 2 1) [1, 1] 1 1 false
        ⟨1, none⟩ (1 / 2)).buffer =
      (if (init_agent [0, 0] 1 1 1 2 1).buffer.length + 1 = 2 then []
       else (init_agent [0, 0] 1 1 1 2 1).buffer ++ [⟨[1, 1], 1, 1, false, none, 1⟩]) ∧
    (update (fun _ => 1 / 2) id (init_agent [0, 0] 1 1 1 2 1) [1, 1] 1 1 false
        ⟨1, none⟩ (1 / 2)).batch_update_count =
      (if (init_agent [0, 0] 1 1 1 2 1).buffer.length + 1 = 2 then 0 + 1 else 0) :=
  ⟨(buffer_capacity_invariant (fun _ => 1 / 2) id).1 [0, 0] 1 1 1 1 2 (by decide) _,
    (buffer_capacity_invariant (fun _ => 1 / 2) id).2 (init_agent [0, 0] 1 1 1 2 1)
      [1, 1] 1 1 false ⟨1, none⟩ (1 / 2) (by decide)⟩
